import Mathlib

/-!
Verification of the Course-Selection-and-GPA-Calculator core.

A shallow embedding of the planning core in `core.py`
(`Catalog`, `EnrollmentPlan`, the validation helpers and the
configuration loader), together with proofs settling the frozen
claims about the repository.

Modelling conventions:
* Python `float` values (credits, GPA, limits) are modelled as `ℚ`.
* Python exceptions are modelled by the inductive type `Err`; a
  Python method that mutates `self` in place is modelled in
  "mutation style" as a function `EnrollmentPlan → EnrollmentPlan × Option Err`
  returning the state of the object after the call (which is the
  pre-state whenever the method raises before mutating) together with
  the raised error, if any.
* Python `round(x, n)` is modelled by `roundTo n` (round half up);
  the claims under study never depend on the tie-breaking direction.
* Python strings are Lean `String`s; the two semester regular
  expressions of `core.py` are implemented character by character.
-/

set_option maxRecDepth 40000
set_option maxHeartbeats 1600000

unseal Rat.add Rat.mul Rat.inv Rat.sub

deriving instance DecidableEq for Except

namespace CourseGpa

/-- The three season characters, `SEASONS` in `core.py`. -/
def SEASONS : List Char := ['秋', '春', '夏']

/-- The twelve canonical planning semesters, `PLAN_SEMESTERS` in `core.py`. -/
def PLAN_SEMESTERS : List String :=
  ["1秋", "1春", "1夏",
   "2秋", "2春", "2夏",
   "3秋", "3春", "3夏",
   "4秋", "4春", "4夏"]

/-- `str.strip()` on the character list: drop whitespace on both ends. -/
def stripChars (cs : List Char) : List Char :=
  ((cs.dropWhile Char.isWhitespace).reverse.dropWhile Char.isWhitespace).reverse

/-- `str.strip()` on a `String`. -/
def stripStr (s : String) : String :=
  ⟨stripChars s.toList⟩

/-- Is the character one of the three season characters? -/
def isSeasonChar (c : Char) : Bool :=
  c == '秋' || c == '春' || c == '夏'

/-- Character-level implementation of `COURSE_SEM_RE`:
`^([1-9]\d*)?(秋|春|夏)$` — an optional year (first digit nonzero)
followed by exactly one season character. -/
def matchesCourseSem (cs : List Char) : Bool :=
  let ds := cs.takeWhile Char.isDigit
  let rest := cs.dropWhile Char.isDigit
  (match rest with
   | [c] => isSeasonChar c
   | _ => false)
  && (match ds with
      | [] => true
      | d :: _ => '1' ≤ d && d ≤ '9')

/-- Character-level implementation of `ACTUAL_SEM_RE`:
`^[1-9]\d*(秋|春|夏)$` — a mandatory year followed by one season character. -/
def matchesActualSem (cs : List Char) : Bool :=
  let ds := cs.takeWhile Char.isDigit
  let rest := cs.dropWhile Char.isDigit
  (match rest with
   | [c] => isSeasonChar c
   | _ => false)
  && (match ds with
      | [] => false
      | d :: _ => '1' ≤ d && d ≤ '9')

/-- `extract_season` in `core.py`: strip the string, match it against
`COURSE_SEM_RE` and return the season character (the membership check
against `SEASONS` is subsumed by the match).  `none` models the raised
`ValueError`. -/
def extract_season (s : String) : Option Char :=
  let cs := stripChars s.toList
  if matchesCourseSem cs then cs.getLast? else none

/-- `ensure_actual_semester` in `core.py`: strip the string and demand a
full `ACTUAL_SEM_RE` match; returns the stripped string.  `none` models
the raised `ValueError`. -/
def ensure_actual_semester (s : String) : Option String :=
  let cs := stripChars s.toList
  if matchesActualSem cs then some ⟨cs⟩ else none

/-- `season_of_actual_semester` applied to an already-validated actual
semester: its last character (`sem[-1]` in `core.py`). -/
def seasonOfActual (sem : String) : Char :=
  sem.toList.getLast?.getD '?'

/-- `int(sem[:-1])`: the year prefix of an actual semester. -/
def yearOf (sem : String) : Nat :=
  (sem.toList.dropLast).foldl (fun n c => 10 * n + (c.toNat - '0'.toNat)) 0

/-- Python's `<` on strings, on the underlying character lists:
strict lexicographic comparison by code point. -/
def charListLt : List Char → List Char → Bool
  | _, [] => false
  | [], _ :: _ => true
  | a :: as, b :: bs =>
    if a < b then true else if b < a then false else charListLt as bs

/-- Python's `<=` on strings (the order `sorted` uses): the negation of
the strict comparison the other way round. -/
def pyStrLE (a b : String) : Prop :=
  charListLt b.data a.data = false

instance : DecidableRel pyStrLE := fun a b =>
  inferInstanceAs (Decidable (charListLt b.data a.data = false))

/-- `target.endswith(c)` for a single-character suffix: the last
character equals `c`. -/
def endsWithChar (s : String) (c : Char) : Bool :=
  s.data.getLast? == some c

/-- Round half up to the nearest integer (computable form, via
`Rat.floor`). -/
def roundQ (q : ℚ) : ℤ :=
  Rat.floor (q + 1 / 2)

/-- `round(x, n)` of Python, on rationals (round half up). -/
def roundTo (n : Nat) (q : ℚ) : ℚ :=
  ((roundQ (q * (10 ^ n : ℚ)) : ℤ) : ℚ) / (10 ^ n : ℚ)

/-- Being an integer multiple of `1/1000` — the shape of every value
rounded to 3 decimals. -/
def multiple3 (q : ℚ) : Prop := ∃ k : ℤ, q = (k : ℚ) / 1000

/-- `round(x, 2)`. -/
def round2 (q : ℚ) : ℚ := roundTo 2 q

/-- `round(x, 3)`. -/
def round3 (q : ℚ) : ℚ := roundTo 3 q

/-- The error taxonomy of `core.py`, one constructor per distinct raise
site relevant to the claims; payload fields carry the data interpolated
into the Python error message. -/
inductive Err where
  /-- `extract_season` / `Catalog.__init__`: malformed course semester tag. -/
  | invalidSemesterTag (s : String)
  /-- `ensure_actual_semester`: malformed actual semester. -/
  | invalidActualSemester (s : String)
  /-- `validate_gpa`: value unparseable or outside `[0, 4]`. -/
  | invalidGpa
  /-- `Catalog.__init__`: duplicate course identifier. -/
  | duplicateCourseId (id : String)
  /-- `Catalog.get`: unknown course identifier (`KeyError`). -/
  | notFoundCatalog (id : String)
  /-- `EnrollmentPlan._get_item` / `remove_course`: course not in plan. -/
  | notFoundPlan
  /-- `add_course`: course already enrolled. -/
  | duplicateEnrollment (id : String)
  /-- `add_course`: the target term's season differs from the course's. -/
  | seasonMismatch (target : String) (targetSeason : Char)
      (id : String) (courseSeason : Char) (courseSem : String)
  /-- `add_course`: term credit ceiling violated; the message shows the
  current term total, the incoming credits and the limit. -/
  | creditCapExceeded (sem : String) (total incoming limit : ℚ)
deriving DecidableEq

/-- `validate_gpa` in `core.py`: `None` passes through; a present value
must lie in `[0, 4]` and is rounded to 2 decimals.  (The Python
`float(...)` parse failure branch is unreachable here because the
embedding is typed.) -/
def validate_gpa (gpa : Option ℚ) : Except Err (Option ℚ) :=
  match gpa with
  | none => .ok none
  | some v => if v < 0 ∨ 4 < v then .error .invalidGpa else .ok (some (round2 v))

/-- `Course` in `core.py` — an immutable course definition. -/
structure Course where
  course_id : String
  name : String
  course_type : String
  credits : ℚ
  semester : String
  hours : Option String := none
  category : String := "未分类"
deriving DecidableEq

/-- `PlanItem` in `core.py` — one enrollment record. -/
structure PlanItem where
  course_id : String
  actual_semester : String
  gpa : Option ℚ := none
deriving DecidableEq

/-- A `Catalog`'s contents: the courses in insertion order (the values of
the Python `dict`, which preserves insertion order and, on successful
construction, holds exactly the input list). -/
abbrev Catalog := List Course

/-- `Catalog.__init__` validation loop: for each course, first the
duplicate-identifier check against the ids seen so far, then the
semester-tag check via `extract_season`. -/
def catalogInitGo (seen : List String) : List Course → Except Err Unit
  | [] => .ok ()
  | c :: rest =>
    if c.course_id ∈ seen then .error (.duplicateCourseId c.course_id)
    else
      match extract_season c.semester with
      | none => .error (.invalidSemesterTag c.semester)
      | some _ => catalogInitGo (seen ++ [c.course_id]) rest

/-- `Catalog(courses)`: on success the catalog holds the input courses in
insertion order. -/
def catalogInit (courses : List Course) : Except Err Catalog :=
  match catalogInitGo [] courses with
  | .error e => .error e
  | .ok _ => .ok courses

/-- Lookup in the catalog's id-keyed dictionary. -/
def catGet? (cat : Catalog) (id : String) : Option Course :=
  cat.find? (fun c => c.course_id == id)

/-- `Catalog.get` (raising form). -/
def catalogGet (cat : Catalog) (id : String) : Except Err Course :=
  match catGet? cat id with
  | none => .error (.notFoundCatalog id)
  | some c => .ok c

/-- Credits of the course with the given id; `0` as an (unreachable under
the plan invariant that every enrolled id resolves in the catalog)
default. -/
def creditsOf (cat : Catalog) (id : String) : ℚ :=
  ((catGet? cat id).map Course.credits).getD 0

/-- Category of the course with the given id, with the dataclass default
for the unreachable missing case. -/
def categoryOf (cat : Catalog) (id : String) : String :=
  ((catGet? cat id).map Course.category).getD "未分类"

/-- `Catalog.required_courses`: the required (`必修`) courses, in catalog
order. -/
def required_courses (cat : Catalog) : List Course :=
  cat.filter (fun c => c.course_type == "必修")

/-- `EnrollmentPlan` in `core.py`. -/
structure EnrollmentPlan where
  catalog : Catalog
  term_credit_limit : ℚ
  elective_credit_requirement : ℚ
  items : List PlanItem
deriving DecidableEq

namespace EnrollmentPlan

/-- `EnrollmentPlan.has_course`. -/
def has_course (p : EnrollmentPlan) (course_id : String) : Bool :=
  p.items.any (fun i => i.course_id == course_id)

/-- `EnrollmentPlan.total_credits`. -/
def total_credits (p : EnrollmentPlan) : ℚ :=
  (p.items.map (fun i => creditsOf p.catalog i.course_id)).sum

/-- `EnrollmentPlan.semester_credits` on an already-validated actual
semester: credits of the items scheduled in that term. -/
def semester_credits_raw (p : EnrollmentPlan) (sem : String) : ℚ :=
  ((p.items.filter (fun i => i.actual_semester == sem)).map
    (fun i => creditsOf p.catalog i.course_id)).sum

/-- `EnrollmentPlan.get_gpa`: the GPA stored on the first matching item
(`_get_item` returns the first match). -/
def get_gpa (p : EnrollmentPlan) (course_id : String) : Except Err (Option ℚ) :=
  match p.items.find? (fun i => i.course_id == course_id) with
  | none => .error .notFoundPlan
  | some i => .ok i.gpa

end EnrollmentPlan

namespace EnrollmentPlan

/-- `EnrollmentPlan.add_course`, in mutation style: the returned plan is
the state of the Python object after the call (unchanged on every error
path, since all validation precedes the single append). -/
def addCourseM (p : EnrollmentPlan) (course_id actual_semester : String) :
    EnrollmentPlan × Option Err :=
  match ensure_actual_semester actual_semester with
  | none => (p, some (.invalidActualSemester actual_semester))
  | some sem =>
    match catGet? p.catalog course_id with
    | none => (p, some (.notFoundCatalog course_id))
    | some c =>
      if p.has_course course_id then (p, some (.duplicateEnrollment course_id))
      else
        match extract_season c.semester with
        | none => (p, some (.invalidSemesterTag c.semester))
        | some course_season =>
          if course_season ≠ seasonOfActual sem then
            (p, some (.seasonMismatch sem (seasonOfActual sem) course_id
              course_season c.semester))
          else if p.term_credit_limit < p.semester_credits_raw sem + c.credits then
            (p, some (.creditCapExceeded sem (p.semester_credits_raw sem)
              c.credits p.term_credit_limit))
          else
            ({ p with items := p.items ++ [⟨course_id, sem, none⟩] }, none)

/-- `EnrollmentPlan.remove_course`, in mutation style: the Python method
first replaces `items` by the list with every matching item filtered
out, then raises when nothing was removed — the post-raise state is the
filtered (then unchanged) list. -/
def removeCourseM (p : EnrollmentPlan) (course_id : String) :
    EnrollmentPlan × Option Err :=
  let kept := p.items.filter (fun i => i.course_id ≠ course_id)
  if kept.length = p.items.length then
    ({ p with items := kept }, some .notFoundPlan)
  else
    ({ p with items := kept }, none)

/-- Set the GPA of the first item with the given course id, leaving the
rest untouched (`_get_item` returns the first match and only that
`PlanItem` is mutated). -/
def setFirstGpa : List PlanItem → String → Option ℚ → List PlanItem
  | [], _, _ => []
  | i :: rest, id, v =>
    if i.course_id = id then { i with gpa := v } :: rest
    else i :: setFirstGpa rest id v

/-- `EnrollmentPlan.set_gpa`, in mutation style.  Python evaluates the
right-hand side `validate_gpa(gpa)` before resolving the assignment
target `self._get_item(course_id).gpa`, so GPA validation precedes the
enrollment lookup. -/
def setGpaM (p : EnrollmentPlan) (course_id : String) (gpa : Option ℚ) :
    EnrollmentPlan × Option Err :=
  match validate_gpa gpa with
  | .error e => (p, some e)
  | .ok v =>
    if p.has_course course_id then
      ({ p with items := setFirstGpa p.items course_id v }, none)
    else (p, some .notFoundPlan)

/-- `EnrollmentPlan.semester_gpa`. -/
def semester_gpa (p : EnrollmentPlan) (actual_semester : String) :
    Except Err (Option ℚ × Nat) :=
  match ensure_actual_semester actual_semester with
  | none => .error (.invalidActualSemester actual_semester)
  | some sem =>
    .ok
      (let term_items := p.items.filter (fun i => i.actual_semester == sem)
       if term_items.isEmpty then (none, 0)
       else
         let missing := (term_items.filter (fun i => i.gpa.isNone)).length
         if 0 < missing then (none, missing)
         else
           let total_w := (term_items.map
             (fun i => i.gpa.getD 0 * creditsOf p.catalog i.course_id)).sum
           let total_c := (term_items.map
             (fun i => creditsOf p.catalog i.course_id)).sum
           if total_c ≤ 0 then (none, 0)
           else (some (round3 (total_w / total_c)), 0))

/-- `EnrollmentPlan.overall_gpa`. -/
def overall_gpa (p : EnrollmentPlan) : Option ℚ × Nat :=
  if p.items.isEmpty then (none, 0)
  else
    let missing := (p.items.filter (fun i => i.gpa.isNone)).length
    if 0 < missing then (none, missing)
    else
      let total_w := (p.items.map
        (fun i => i.gpa.getD 0 * creditsOf p.catalog i.course_id)).sum
      let total_c := (p.items.map (fun i => creditsOf p.catalog i.course_id)).sum
      if total_c ≤ 0 then (none, 0)
      else (some (round3 (total_w / total_c)), 0)

end EnrollmentPlan

/-- The default `major_categories` argument of `major_gpa`. -/
def MAJOR_CATS : List String := ["专业必修", "专业选修"]

/-- `(c.category or "未分类").strip()`: an empty category string falls
back to the default before trimming. -/
def normCat (cat : String) : String :=
  stripStr (if cat = "" then "未分类" else cat)

/-- `(c.category or "未分类").strip() or "未分类"`, as used by
`credit_progress_by_category`: a category that trims to the empty string
also falls back to the default. -/
def normCat2 (cat : String) : String :=
  let t := normCat cat
  if t = "" then "未分类" else t

namespace EnrollmentPlan

/-- `EnrollmentPlan.major_gpa` with its default category set. -/
def major_gpa (p : EnrollmentPlan) : Option ℚ × Nat :=
  let major_items := p.items.filter
    (fun i => MAJOR_CATS.contains (normCat (categoryOf p.catalog i.course_id)))
  if major_items.isEmpty then (none, 0)
  else
    let missing := (major_items.filter (fun i => i.gpa.isNone)).length
    if 0 < missing then (none, missing)
    else
      let total_w := (major_items.map
        (fun i => i.gpa.getD 0 * creditsOf p.catalog i.course_id)).sum
      let total_c := (major_items.map (fun i => creditsOf p.catalog i.course_id)).sum
      if total_c ≤ 0 then (none, 0)
      else (some (round3 (total_w / total_c)), 0)

/-- The distinct enrollment years, ascending — the sorted key set of the
`buckets` dictionary of `EnrollmentPlan.yearly_gpa`. -/
def planYears (p : EnrollmentPlan) : List Nat :=
  List.insertionSort (· ≤ ·) (p.items.map (fun i => yearOf i.actual_semester)).dedup

/-- `EnrollmentPlan.yearly_gpa`: buckets keyed by the year prefix of the
actual semester, output sorted by year, each bucket aggregated by the
common weighted-GPA loop. -/
def yearly_gpa (p : EnrollmentPlan) : List (Nat × (Option ℚ × Nat)) :=
  (p.planYears).map (fun y =>
    let items := p.items.filter (fun i => yearOf i.actual_semester == y)
    (y,
      if items.isEmpty then (none, 0)
      else
        let missing := (items.filter (fun i => i.gpa.isNone)).length
        if 0 < missing then (none, missing)
        else
          let total_w := (items.map
            (fun i => i.gpa.getD 0 * creditsOf p.catalog i.course_id)).sum
          let total_c := (items.map (fun i => creditsOf p.catalog i.course_id)).sum
          if total_c ≤ 0 then (none, 0)
          else (some (round3 (total_w / total_c)), 0)))

end EnrollmentPlan

/-- One category's slot of the progress dictionary:
`{"required": .., "selected": .., "completed": ..}`. -/
structure CatProgress where
  required : ℚ
  selected : ℚ
  completed : ℚ
deriving DecidableEq

/-- One output row of `credit_progress_rows`. -/
structure ProgressRow where
  category : String
  required : ℚ
  selected : ℚ
  completed : ℚ
  remaining : ℚ
deriving DecidableEq

/-- Add an enrolled course's credits to its category's slot of the
(insertion-ordered) progress dictionary, seeding a zero-required slot
when the category is novel. -/
def addToCat (l : List (String × CatProgress)) (cat : String) (cr : ℚ)
    (graded : Bool) : List (String × CatProgress) :=
  match l with
  | [] => [(cat, ⟨0, cr, if graded then cr else 0⟩)]
  | (k, v) :: rest =>
    if k = cat then
      (k, ⟨v.required, v.selected + cr,
        v.completed + (if graded then cr else 0)⟩) :: rest
    else (k, v) :: addToCat rest cat cr graded

namespace EnrollmentPlan

/-- `EnrollmentPlan.credit_progress_by_category`: seed one slot per
requirement category (in declaration order), accumulate every item's
credits into `selected` — and into `completed` when graded — then round
every slot to 3 decimals. -/
def credit_progress_by_category (p : EnrollmentPlan)
    (reqs : List (String × ℚ)) : List (String × CatProgress) :=
  let seeded := reqs.map (fun r => (r.1, CatProgress.mk r.2 0 0))
  let filled := p.items.foldl (fun acc i =>
    addToCat acc (normCat2 (categoryOf p.catalog i.course_id))
      (creditsOf p.catalog i.course_id) i.gpa.isSome) seeded
  filled.map (fun kv =>
    (kv.1, ⟨round3 kv.2.required, round3 kv.2.selected, round3 kv.2.completed⟩))

/-- The extra categories of `credit_progress_rows`: progress-dictionary
keys not declared in the requirements, sorted. -/
def extraCats (p : EnrollmentPlan) (reqs : List (String × ℚ)) : List String :=
  List.insertionSort pyStrLE
    (((p.credit_progress_by_category reqs).map Prod.fst).filter
      (fun k => ¬ (reqs.map Prod.fst).contains k))

/-- `EnrollmentPlan.credit_progress_rows`. -/
def credit_progress_rows (p : EnrollmentPlan)
    (reqs : List (String × ℚ)) : List ProgressRow :=
  let prog := p.credit_progress_by_category reqs
  let ordered := reqs.map Prod.fst
  (ordered ++ p.extraCats reqs).map (fun cat =>
    let pr := ((prog.find? (fun kv => kv.1 == cat)).map Prod.snd).getD ⟨0, 0, 0⟩
    { category := cat
      required := round3 pr.required
      selected := round3 pr.selected
      completed := round3 pr.completed
      remaining := round3 (max (pr.required - pr.completed) 0) })

/-- The target actual semester `auto_add_all_required` computes for one
required course: an exact `ACTUAL_SEM_RE` tag is kept, a season-only tag
defaults to the fourth year's matching season, and a defensive final
check remaps any target outside `PLAN_SEMESTERS` to the fourth year's
season. -/
def autoTarget (c : Course) : String :=
  let target :=
    if matchesActualSem c.semester.toList then
      c.semester
    else
      -- `extract_season` cannot fail on a catalog-validated course; the
      -- catch-all arm is the `夏` branch of the Python conditional.
      match extract_season c.semester with
      | some '秋' => "4秋"
      | some '春' => "4春"
      | _ => "4夏"
  if target ∉ PLAN_SEMESTERS then
    if endsWithChar target '秋' then "4秋"
    else if endsWithChar target '春' then "4春"
    else "4夏"
  else target

/-- The iteration loop of `auto_add_all_required`: skip enrolled courses,
enroll the rest via `add_course`, and abort on the first failure,
keeping the courses already added. -/
def autoAddGo (p : EnrollmentPlan) : List Course → EnrollmentPlan × Option Err
  | [] => (p, none)
  | c :: rest =>
    if p.has_course c.course_id then autoAddGo p rest
    else
      match p.addCourseM c.course_id (autoTarget c) with
      | (p', none) => autoAddGo p' rest
      | (_, some e) => (p, some e)

/-- The sort key relation of `auto_add_all_required`: Python's tuple
comparison on `(extract_season(semester), course_id)`. -/
def autoSortLE (c₁ c₂ : Course) : Prop :=
  (extract_season c₁.semester).getD '?' < (extract_season c₂.semester).getD '?'
  ∨ ((extract_season c₁.semester).getD '?' = (extract_season c₂.semester).getD '?'
      ∧ pyStrLE c₁.course_id c₂.course_id)

instance : DecidableRel autoSortLE := fun c₁ c₂ =>
  inferInstanceAs (Decidable
    ((extract_season c₁.semester).getD '?' < (extract_season c₂.semester).getD '?'
     ∨ ((extract_season c₁.semester).getD '?' = (extract_season c₂.semester).getD '?'
        ∧ pyStrLE c₁.course_id c₂.course_id)))

/-- `EnrollmentPlan.auto_add_all_required`, in mutation style. -/
def auto_add_all_required (p : EnrollmentPlan) : EnrollmentPlan × Option Err :=
  autoAddGo p (List.insertionSort autoSortLE (required_courses p.catalog))

end EnrollmentPlan

/-- The per-course placement the (amended) specification describes: a
program tag that names one of the twelve planning semesters verbatim is
used as the target; any other tag — season-only, or an explicit year
outside the four planning years — is placed in the fourth (final)
planning year's matching season. -/
def autoTargetSpec (c : Course) : String :=
  if c.semester ∈ PLAN_SEMESTERS then c.semester
  else
    match extract_season c.semester with
    | some '春' => "4春"
    | some '夏' => "4夏"
    | _ => "4秋"

/-- The batch loop as the claim words it: iterate over the required
courses sorted by (season, identifier), skip the already-enrolled ones,
enroll each at its target via `addCourse`, and abort on the first
failure keeping the courses added before it. -/
def autoAddSpecGo (p : EnrollmentPlan) : List Course → EnrollmentPlan × Option Err
  | [] => (p, none)
  | c :: rest =>
    if p.has_course c.course_id then autoAddSpecGo p rest
    else
      match p.addCourseM c.course_id (autoTargetSpec c) with
      | (p', none) => autoAddSpecGo p' rest
      | (_, some e) => (p, some e)

/-- The claim-side `autoAddAllRequired`. -/
def autoAddSpec (p : EnrollmentPlan) : EnrollmentPlan × Option Err :=
  autoAddSpecGo p (List.insertionSort EnrollmentPlan.autoSortLE
    (required_courses p.catalog))

/-- One raw plan item of the persisted JSON document
(`plan.items[...]` before validation). -/
structure RawItem where
  course_id : String
  actual_semester : String
  gpa : Option ℚ := none
deriving DecidableEq

/-- The plan-item loading loop of `load_from_config`: each raw item's
actual semester is validated by `ensure_actual_semester`, its GPA by
`validate_gpa`, and its course id by a `Catalog.get` lookup — then the
item is appended directly to the plan's item list. -/
def loadItems (cat : Catalog) : List RawItem → Except Err (List PlanItem)
  | [] => .ok []
  | r :: rest =>
    match ensure_actual_semester r.actual_semester with
    | none => .error (.invalidActualSemester r.actual_semester)
    | some sem =>
      match validate_gpa r.gpa with
      | .error e => .error e
      | .ok g =>
        match catalogGet cat r.course_id with
        | .error e => .error e
        | .ok _ =>
          match loadItems cat rest with
          | .error e => .error e
          | .ok tail => .ok (⟨r.course_id, sem, g⟩ :: tail)

/-- The in-memory part of `load_from_config` after JSON parsing: build
the catalog through `Catalog.__init__`, then the plan with the
configured scalars, then validate-and-append every persisted item. -/
def load_from_config_core (courses : List Course) (term_credit_limit
    elective_credit_requirement : ℚ) (raw : List RawItem) :
    Except Err EnrollmentPlan :=
  match catalogInit courses with
  | .error e => .error e
  | .ok cat =>
    match loadItems cat raw with
    | .error e => .error e
    | .ok items =>
      .ok ⟨cat, term_credit_limit, elective_credit_requirement, items⟩

/-- The weighted-GPA algorithm exactly as the specification words it,
shared by all four aggregates: an empty subset is `(absent, 0)`; any
ungraded item blanks the aggregate to `(absent, #ungraded)`; a fully
graded subset with zero total credits is `(absent, 0)`; otherwise the
credit-weighted average rounded to 3 decimals. -/
def gpaAggregate (cat : Catalog) (items : List PlanItem) : Option ℚ × Nat :=
  if items = [] then (none, 0)
  else if 0 < (items.filter (fun i => i.gpa.isNone)).length then
    (none, (items.filter (fun i => i.gpa.isNone)).length)
  else
    let total_c := (items.map (fun i => creditsOf cat i.course_id)).sum
    if total_c = 0 then (none, 0)
    else
      (some (round3
        ((items.map (fun i => i.gpa.getD 0 * creditsOf cat i.course_id)).sum / total_c)), 0)

/-- The three per-course-id states of the specification's state machine. -/
inductive CState where
  | absent
  | ungraded
  | graded
deriving DecidableEq

/-- The per-course-id state of a plan: determined by the first matching
item, exactly as `_get_item` resolves a course id. -/
def courseState (p : EnrollmentPlan) (id : String) : CState :=
  match p.items.find? (fun i => i.course_id == id) with
  | none => .absent
  | some i => if i.gpa.isSome then .graded else .ungraded

/-- The transitions the (amended) per-course state machine allows:
stay put, `absent → enrolled(ungraded)` (add), `enrolled(*) → absent`
(removal), `ungraded → graded` (grading), and `graded → ungraded`
(clearing a stored grade via `setGpa` with an absent value). -/
def allowedStep : CState → CState → Prop := fun s t =>
  s = t
  ∨ (s = .absent ∧ t = .ungraded)
  ∨ (s ≠ .absent ∧ t = .absent)
  ∨ (s = .ungraded ∧ t = .graded)
  ∨ (s = .graded ∧ t = .ungraded)

/-- The three single-course mutation operations of the plan. -/
inductive PlanOp where
  | addC (course_id actual_semester : String)
  | removeC (course_id : String)
  | setG (course_id : String) (gpa : Option ℚ)
deriving DecidableEq

/-- Apply one mutation operation (mutation style). -/
def applyOpM (p : EnrollmentPlan) : PlanOp → EnrollmentPlan × Option Err
  | .addC cid sem => p.addCourseM cid sem
  | .removeC cid => p.removeCourseM cid
  | .setG cid g => p.setGpaM cid g

/-! Concrete fixtures used by witnesses and counterexamples. -/

/-- Two required autumn courses of 3 and 2 credits. -/
def catC3 : Catalog :=
  [{ course_id := "A", name := "甲", course_type := "必修", credits := 3, semester := "秋" },
   { course_id := "B", name := "乙", course_type := "必修", credits := 2, semester := "秋" }]

/-- An empty plan over `catC3` with a 3-credit term ceiling. -/
def planC3 : EnrollmentPlan :=
  { catalog := catC3, term_credit_limit := 3, elective_credit_requirement := 15, items := [] }

/-- The credit-cap scenario of the specification: required autumn course
`A1` of 3 credits, second autumn course `B1` of 2 credits, term limit 3. -/
def catC5 : Catalog :=
  [{ course_id := "A1", name := "甲", course_type := "必修", credits := 3, semester := "秋" },
   { course_id := "B1", name := "乙", course_type := "必修", credits := 2, semester := "秋" }]

/-- The empty plan of the credit-cap scenario. -/
def planC5 : EnrollmentPlan :=
  { catalog := catC5, term_credit_limit := 3, elective_credit_requirement := 15, items := [] }

/-- The credit-cap scenario plan after `A1` was added to term `1秋`. -/
def planC5B : EnrollmentPlan :=
  { planC5 with items := [⟨"A1", "1秋", none⟩] }

/-- A one-course catalog for the round-trip witness. -/
def catC6 : Catalog :=
  [{ course_id := "A", name := "甲", course_type := "选修", credits := 2, semester := "秋" }]

/-- An empty plan over `catC6`. -/
def planC6 : EnrollmentPlan :=
  { catalog := catC6, term_credit_limit := 30, elective_credit_requirement := 15, items := [] }

/-- A plan holding one graded course. -/
def planC2 : EnrollmentPlan :=
  { catalog := [{ course_id := "A", name := "甲", course_type := "必修", credits := 3,
                  semester := "秋" }],
    term_credit_limit := 30, elective_credit_requirement := 15,
    items := [{ course_id := "A", actual_semester := "1秋", gpa := some 3 }] }

/-- A one-course catalog for the duplicate-load counterexample. -/
def catC1 : Catalog :=
  [{ course_id := "A", name := "甲", course_type := "必修", credits := 1, semester := "秋" }]

/-- A persisted document enrolling the same course twice. -/
def rawC1 : List RawItem :=
  [{ course_id := "A", actual_semester := "1秋" },
   { course_id := "A", actual_semester := "1秋" }]

/-- A catalog whose single required course is tagged with an explicit
year beyond the four planning years. -/
def catC7 : Catalog :=
  [{ course_id := "X", name := "甲", course_type := "必修", credits := 1, semester := "5秋" }]

/-- An empty plan over `catC7`. -/
def planC7 : EnrollmentPlan :=
  { catalog := catC7, term_credit_limit := 30, elective_credit_requirement := 15, items := [] }

/-- A plan with two duplicate items for `"A"` plus one for `"B"`, as a
deserialized document can produce. -/
def planC10 : EnrollmentPlan :=
  { catalog := [{ course_id := "A", name := "甲", course_type := "必修", credits := 1,
                  semester := "秋" },
                { course_id := "B", name := "乙", course_type := "必修", credits := 2,
                  semester := "秋" }],
    term_credit_limit := 30, elective_credit_requirement := 15,
    items := [{ course_id := "A", actual_semester := "1秋" },
              { course_id := "B", actual_semester := "1秋" },
              { course_id := "A", actual_semester := "2秋", gpa := some 4 }] }

end CourseGpa

/-! ## Shared lemmas about the embedded operations -/

namespace CourseGpa

theorem has_course_false_iff (p : EnrollmentPlan) (id : String) :
    p.has_course id = false ↔ ∀ i ∈ p.items, i.course_id ≠ id := by
  simp [EnrollmentPlan.has_course]

theorem has_course_true_iff (p : EnrollmentPlan) (id : String) :
    p.has_course id = true ↔ ∃ i ∈ p.items, i.course_id = id := by
  simp [EnrollmentPlan.has_course]

/-- A successful `add_course` validated the semester, found the course
id unenrolled, and appended exactly one ungraded item. -/
theorem addCourseM_ok (p : EnrollmentPlan) (cid sem : String)
    (q : EnrollmentPlan) (h : p.addCourseM cid sem = (q, none)) :
    ∃ sem', ensure_actual_semester sem = some sem'
      ∧ p.has_course cid = false
      ∧ q = { p with items := p.items ++ [⟨cid, sem', none⟩] } := by
  unfold EnrollmentPlan.addCourseM at h
  split at h
  · simp at h
  next sem' heq =>
    split at h
    · simp at h
    next c hc =>
      split at h
      · simp at h
      next hd =>
        split at h
        · simp at h
        next cs hcs =>
          split at h
          · simp at h
          · split at h
            · simp at h
            · injection h with h1 h2
              exact ⟨sem', heq, by simpa using hd, h1.symm⟩

/-- When the course id is enrolled, `remove_course` succeeds and keeps
exactly the items with a different course id. -/
theorem removeCourseM_of_has_course (p : EnrollmentPlan) (id : String)
    (h : p.has_course id = true) :
    p.removeCourseM id
      = ({ p with items := p.items.filter (fun i => i.course_id ≠ id) }, none) := by
  have hlt : (p.items.filter (fun i => i.course_id ≠ id)).length
      < p.items.length := by
    rw [List.length_filter_lt_length_iff_exists]
    have := (has_course_true_iff p id).1 h
    simpa using this
  simp only [EnrollmentPlan.removeCourseM]
  rw [if_neg (Nat.ne_of_lt hlt)]

/-- A failing `add_course` leaves the plan untouched. -/
theorem addCourseM_failure_atomic (p : EnrollmentPlan) (cid sem : String)
    (q : EnrollmentPlan) (e : Err) (h : p.addCourseM cid sem = (q, some e)) :
    q = p := by
  unfold EnrollmentPlan.addCourseM at h
  split at h
  · injection h with h1 h2; exact h1.symm
  next sem' heq =>
    split at h
    · injection h with h1 h2; exact h1.symm
    next c hc =>
      split at h
      · injection h with h1 h2; exact h1.symm
      next hd =>
        split at h
        · injection h with h1 h2; exact h1.symm
        next cs hcs =>
          split at h
          · injection h with h1 h2; exact h1.symm
          · split at h
            · injection h with h1 h2; exact h1.symm
            · simp at h

/-- A failing `remove_course` leaves the plan untouched: nothing was
filtered out, so the replaced item list is the original one. -/
theorem removeCourseM_failure_atomic (p : EnrollmentPlan) (id : String)
    (q : EnrollmentPlan) (e : Err) (h : p.removeCourseM id = (q, some e)) :
    q = p := by
  simp only [EnrollmentPlan.removeCourseM] at h
  split at h
  next hlen =>
    have heq : p.items.filter (fun i => i.course_id ≠ id) = p.items :=
      (List.filter_sublist p.items).eq_of_length hlen
    injection h with h1 h2
    rw [← h1, heq]
  · simp at h

/-- A failing `set_gpa` leaves the plan untouched. -/
theorem setGpaM_failure_atomic (p : EnrollmentPlan) (cid : String)
    (g : Option ℚ) (q : EnrollmentPlan) (e : Err)
    (h : p.setGpaM cid g = (q, some e)) : q = p := by
  unfold EnrollmentPlan.setGpaM at h
  split at h
  · injection h with h1 h2; exact h1.symm
  · split at h
    · simp at h
    · injection h with h1 h2; exact h1.symm

end CourseGpa

/-! ## Claim C3 — failure atomicity -/

namespace CourseGpa

/-- C3 (amended): each single-course mutation operation (`addCourse`,
`removeCourse`, `setGpa`) that fails raises a descriptive error and
leaves the plan — item collection and configuration scalars — exactly
as before the call.  (`autoAddAllRequired` is excluded: it aborts on
the first failure and keeps the courses added before it.) -/
theorem single_op_failure_atomic (p : EnrollmentPlan) (op : PlanOp)
    (q : EnrollmentPlan) (e : Err) (h : applyOpM p op = (q, some e)) :
    q = p := by
  cases op with
  | addC cid sem => exact addCourseM_failure_atomic p cid sem q e h
  | removeC cid => exact removeCourseM_failure_atomic p cid q e h
  | setG cid g => exact setGpaM_failure_atomic p cid g q e h

/-- C3 counterexample: `autoAddAllRequired` is not atomic — on `planC3`
it fails on the second required course yet keeps the first course it
added, so a failing run mutates the plan. -/
theorem auto_add_partial_mutation :
    (planC3.auto_add_all_required).2.isSome = true
    ∧ (planC3.auto_add_all_required).1.items ≠ planC3.items := by
  constructor
  · decide
  · decide

/-- C3 witness: `addCourse` of an already-enrolled course fails with a
duplicate-enrollment error and leaves the plan unchanged. -/
theorem single_op_failure_atomic_witness :
    applyOpM planC2 (.addC "A" "2秋") = (planC2, some (.duplicateEnrollment "A"))
    ∧ planC2 = planC2 :=
  ⟨by decide,
   single_op_failure_atomic planC2 (.addC "A" "2秋") planC2
     (.duplicateEnrollment "A") (by decide)⟩

end CourseGpa

/-! ## More shared lemmas: success shapes and `find?` facts -/

namespace CourseGpa

/-- A successful `remove_course` found the course enrolled and kept
exactly the items with a different id. -/
theorem removeCourseM_ok (p : EnrollmentPlan) (cid : String)
    (p' : EnrollmentPlan) (h : p.removeCourseM cid = (p', none)) :
    p' = { p with items := p.items.filter (fun i => i.course_id ≠ cid) }
    ∧ p.has_course cid = true := by
  simp only [EnrollmentPlan.removeCourseM] at h
  split at h
  · simp at h
  next hlen =>
    injection h with h1 h2
    refine ⟨h1.symm, ?_⟩
    rw [has_course_true_iff]
    by_contra hcon
    push_neg at hcon
    have hfe : p.items.filter (fun i => i.course_id ≠ cid) = p.items :=
      List.filter_eq_self.mpr (by intro a ha; simpa using hcon a ha)
    exact hlen (by rw [hfe])

/-- A successful `set_gpa` validated the value and updated the first
matching item. -/
theorem setGpaM_ok (p : EnrollmentPlan) (cid : String) (g : Option ℚ)
    (p' : EnrollmentPlan) (h : p.setGpaM cid g = (p', none)) :
    ∃ v, validate_gpa g = .ok v ∧ p.has_course cid = true
      ∧ p' = { p with items := EnrollmentPlan.setFirstGpa p.items cid v } := by
  unfold EnrollmentPlan.setGpaM at h
  split at h
  · simp at h
  next v hv =>
    split at h
    next hd => injection h with h1 h2; exact ⟨v, hv, hd, h1.symm⟩
    · simp at h

/-- `validate_gpa` never turns a present value into an absent one or
vice versa. -/
theorem validate_gpa_ok_isSome (g v : Option ℚ)
    (h : validate_gpa g = .ok v) : v.isSome = g.isSome := by
  cases g with
  | none =>
    simp only [validate_gpa] at h
    injection h with h1
    rw [← h1]
  | some x =>
    simp only [validate_gpa] at h
    split at h
    · simp at h
    · injection h with h1
      rw [← h1]
      rfl

/-- `find?` over a filter by a coarser predicate. -/
theorem find?_filter_compat {α : Type} (l : List α) (pr q : α → Bool)
    (hcompat : ∀ a, pr a = true → q a = true) :
    (l.filter q).find? pr = l.find? pr := by
  induction l with
  | nil => rfl
  | cons a l ih =>
    by_cases hq : q a = true
    · rw [List.filter_cons_of_pos hq]
      by_cases hp : pr a = true
      · rw [List.find?_cons_of_pos _ hp, List.find?_cons_of_pos _ hp]
      · rw [List.find?_cons_of_neg _ hp, List.find?_cons_of_neg _ hp]
        exact ih
    · rw [List.filter_cons_of_neg hq]
      have hp : ¬ pr a = true := fun hpa => hq (hcompat a hpa)
      rw [List.find?_cons_of_neg _ hp]
      exact ih

/-- `setFirstGpa` does not disturb lookups for a different course id. -/
theorem find?_setFirstGpa_ne (items : List PlanItem) (cid : String)
    (v : Option ℚ) (id : String) (hne : id ≠ cid) :
    (EnrollmentPlan.setFirstGpa items cid v).find? (fun i => i.course_id == id)
      = items.find? (fun i => i.course_id == id) := by
  induction items with
  | nil => rfl
  | cons i rest ih =>
    unfold EnrollmentPlan.setFirstGpa
    by_cases hic : i.course_id = cid
    · rw [if_pos hic]
      have hpr : (i.course_id == id) = false := by
        rw [beq_eq_false_iff_ne]
        rw [hic]
        exact fun hcon => hne hcon.symm
      simp only [List.find?_cons, hpr]
    · rw [if_neg hic]
      rcases hp : (i.course_id == id) with _ | _
      · simp only [List.find?_cons, hp]
        exact ih
      · simp only [List.find?_cons, hp]

/-- `setFirstGpa` rewrites exactly the first matching item's GPA. -/
theorem find?_setFirstGpa_eq (items : List PlanItem) (cid : String)
    (v : Option ℚ) (i₀ : PlanItem)
    (h : items.find? (fun i => i.course_id == cid) = some i₀) :
    (EnrollmentPlan.setFirstGpa items cid v).find? (fun i => i.course_id == cid)
      = some { i₀ with gpa := v } := by
  induction items with
  | nil => simp at h
  | cons i rest ih =>
    unfold EnrollmentPlan.setFirstGpa
    by_cases hic : i.course_id = cid
    · rw [if_pos hic]
      have hpr : (i.course_id == cid) = true := by
        rw [beq_iff_eq]; exact hic
      simp only [List.find?_cons, hpr] at h
      simp only [List.find?_cons, hpr]
      injection h with h
      rw [h]
    · rw [if_neg hic]
      have hpr : (i.course_id == cid) = false := by
        rw [beq_eq_false_iff_ne]; exact hic
      simp only [List.find?_cons, hpr] at h
      simp only [List.find?_cons, hpr]
      exact ih h

/-- Enrollment means `find?` succeeds. -/
theorem has_course_iff_find?_isSome (p : EnrollmentPlan) (id : String) :
    p.has_course id
      = (p.items.find? (fun i => i.course_id == id)).isSome := by
  unfold EnrollmentPlan.has_course
  rw [Bool.eq_iff_iff, List.any_eq_true, List.find?_isSome]

end CourseGpa

/-! ## Claim C6 — add/remove round trip -/

namespace CourseGpa

/-- C6: for a course id not currently enrolled, a successful
`addCourse(id, sem)` followed by `removeCourse(id)` restores
`totalCredits()` and `hasCourse(id)` to exactly their pre-add values. -/
theorem add_remove_round_trip (p : EnrollmentPlan) (cid sem : String)
    (p₁ : EnrollmentPlan)
    (hnot : p.has_course cid = false)
    (hadd : p.addCourseM cid sem = (p₁, none)) :
    (p₁.removeCourseM cid).2 = none
    ∧ (p₁.removeCourseM cid).1.total_credits = p.total_credits
    ∧ (p₁.removeCourseM cid).1.has_course cid = p.has_course cid := by
  obtain ⟨sem', -, -, hp₁⟩ := addCourseM_ok p cid sem p₁ hadd
  have hfilp : p.items.filter (fun i => i.course_id ≠ cid) = p.items :=
    List.filter_eq_self.mpr (by
      intro a ha
      have := (has_course_false_iff p cid).1 hnot a ha
      simpa using this)
  have hhc : p₁.has_course cid = true := by
    rw [hp₁]
    simp [EnrollmentPlan.has_course]
  have hrm : p₁.removeCourseM cid = (p, none) := by
    rw [removeCourseM_of_has_course p₁ cid hhc, hp₁]
    have hone : (([⟨cid, sem', none⟩] : List PlanItem).filter
        (fun i => i.course_id ≠ cid)) = [] := by simp
    rw [show ({ p with items := p.items ++ [⟨cid, sem', none⟩] } :
        EnrollmentPlan).items = p.items ++ [⟨cid, sem', none⟩] from rfl,
      List.filter_append, hfilp, hone, List.append_nil]
  refine ⟨?_, ?_, ?_⟩ <;> rw [hrm]

/-- C6 witness: the round trip on a concrete plan. -/
theorem add_remove_round_trip_witness :
    planC6.has_course "A" = false
    ∧ planC6.addCourseM "A" "1秋"
        = ({ planC6 with items := [⟨"A", "1秋", none⟩] }, none)
    ∧ ((({ planC6 with items := [⟨"A", "1秋", none⟩] } :
          EnrollmentPlan).removeCourseM "A").2 = none
      ∧ (({ planC6 with items := [⟨"A", "1秋", none⟩] } :
          EnrollmentPlan).removeCourseM "A").1.total_credits
          = planC6.total_credits
      ∧ (({ planC6 with items := [⟨"A", "1秋", none⟩] } :
          EnrollmentPlan).removeCourseM "A").1.has_course "A"
          = planC6.has_course "A") :=
  ⟨by decide, by decide,
   add_remove_round_trip planC6 "A" "1秋" _ (by decide) (by decide)⟩

end CourseGpa

/-! ## Claim C10 — removal deletes every matching item -/

namespace CourseGpa

/-- C10: a successful `removeCourse(courseId)` deletes every `PlanItem`
whose course id equals `courseId` — not only the first occurrence — so
`hasCourse(courseId)` is false afterwards even if the item list held
several entries for that id. -/
theorem remove_course_removes_all (p : EnrollmentPlan) (id : String)
    (h : p.has_course id = true) :
    p.removeCourseM id
      = ({ p with items := p.items.filter (fun i => i.course_id ≠ id) }, none)
    ∧ (p.removeCourseM id).1.has_course id = false := by
  have hrm := removeCourseM_of_has_course p id h
  refine ⟨hrm, ?_⟩
  rw [hrm]
  rw [show ({ p with items := p.items.filter (fun i => i.course_id ≠ id) } :
      EnrollmentPlan).has_course id
      = (p.items.filter (fun i => i.course_id ≠ id)).any
          (fun i => i.course_id == id) from rfl]
  rw [List.any_eq_false]
  intro i hi
  have := (List.mem_filter.mp hi).2
  simpa using this

/-- C10 witness: a plan whose deserialized state contains two items for
`"A"`; removing `"A"` deletes both. -/
theorem remove_course_removes_all_witness :
    planC10.has_course "A" = true
    ∧ (planC10.removeCourseM "A"
        = ({ planC10 with items :=
              planC10.items.filter (fun i => i.course_id ≠ "A") }, none)
      ∧ (planC10.removeCourseM "A").1.has_course "A" = false)
    ∧ (planC10.removeCourseM "A").1.items = [⟨"B", "1秋", none⟩] :=
  ⟨by decide, remove_course_removes_all planC10 "A" (by decide), by decide⟩

end CourseGpa

/-! ## Claim C2 — the per-course state machine -/

namespace CourseGpa

/-- C2 (amended): under the mutation operations `addCourse`,
`removeCourse` and `setGpa`, the per-course-id state takes only these
transitions: stay put, absent → enrolled(ungraded) (add),
enrolled(*) → absent (removal), enrolled(ungraded) → enrolled(graded)
(grading), and — via `setGpa` with an absent value — also
enrolled(graded) → enrolled(ungraded); one-step absent →
enrolled(graded) remains impossible. -/
theorem course_state_transitions (p : EnrollmentPlan) (op : PlanOp)
    (p' : EnrollmentPlan) (h : applyOpM p op = (p', none)) (id : String) :
    allowedStep (courseState p id) (courseState p' id) := by
  cases op with
  | addC cid sem =>
    obtain ⟨sem', -, hnc, hp'⟩ := addCourseM_ok p cid sem p' h
    subst hp'
    unfold courseState
    rw [show ({ p with items := p.items ++ [⟨cid, sem', none⟩] } :
        EnrollmentPlan).items = p.items ++ [⟨cid, sem', none⟩] from rfl,
      List.find?_append]
    cases hf : p.items.find? (fun i => i.course_id == id) with
    | some i =>
      simp only [Option.or]
      left; rfl
    | none =>
      simp only [Option.or]
      by_cases hid : cid = id
      · subst hid
        simp only [List.find?_cons, beq_self_eq_true]
        simp [allowedStep]
      · have hne : (cid == id) = false := by
          rw [beq_eq_false_iff_ne]; exact hid
        simp only [List.find?_cons, hne, List.find?_nil]
        left; rfl
  | removeC cid =>
    obtain ⟨hp', hhc⟩ := removeCourseM_ok p cid p' h
    subst hp'
    unfold courseState
    rw [show ({ p with items := p.items.filter (fun i => i.course_id ≠ cid) } :
        EnrollmentPlan).items = p.items.filter (fun i => i.course_id ≠ cid)
        from rfl]
    by_cases hid : id = cid
    · subst hid
      have ht : (p.items.filter (fun i => i.course_id ≠ id)).find?
          (fun i => i.course_id == id) = none := by
        rw [List.find?_eq_none]
        intro x hx
        have := (List.mem_filter.mp hx).2
        simpa using this
      rw [ht]
      have hs := has_course_iff_find?_isSome p id
      rw [hhc] at hs
      cases hf : p.items.find? (fun i => i.course_id == id) with
      | none => rw [hf] at hs; simp at hs
      | some i =>
        by_cases hg : i.gpa.isSome <;> simp [hg, allowedStep]
    · rw [find?_filter_compat p.items (fun i => i.course_id == id)
        (fun i => i.course_id ≠ cid) (by
          intro a ha
          have : a.course_id = id := by simpa using ha
          simp [this, hid])]
      left; rfl
  | setG cid g =>
    obtain ⟨v, hv, hhc, hp'⟩ := setGpaM_ok p cid g p' h
    subst hp'
    unfold courseState
    rw [show ({ p with items := EnrollmentPlan.setFirstGpa p.items cid v } :
        EnrollmentPlan).items = EnrollmentPlan.setFirstGpa p.items cid v
        from rfl]
    by_cases hid : id = cid
    · subst hid
      have hs := has_course_iff_find?_isSome p id
      rw [hhc] at hs
      cases hf : p.items.find? (fun i => i.course_id == id) with
      | none => rw [hf] at hs; simp at hs
      | some i =>
        rw [find?_setFirstGpa_eq p.items id v i hf]
        by_cases hg : i.gpa.isSome <;> by_cases hgv : v.isSome <;>
          simp [hg, hgv, allowedStep]
    · rw [find?_setFirstGpa_ne p.items cid v id hid]
      left; rfl

/-- C2 counterexample: `setGpa` with an absent value takes an
enrolled(graded) course back to enrolled(ungraded), a transition the
claim's state machine forbids. -/
theorem graded_to_ungraded_possible :
    planC2.setGpaM "A" none
      = ({ planC2 with items := [⟨"A", "1秋", none⟩] }, none)
    ∧ courseState planC2 "A" = .graded
    ∧ courseState ({ planC2 with items := [⟨"A", "1秋", none⟩] } :
        EnrollmentPlan) "A" = .ungraded :=
  ⟨by decide, by decide, by decide⟩

/-- C2 witness: the amended transition relation applied to a concrete
successful operation. -/
theorem course_state_transitions_witness :
    applyOpM planC2 (.setG "A" none)
      = ({ planC2 with items := [⟨"A", "1秋", none⟩] }, none)
    ∧ allowedStep (courseState planC2 "A")
        (courseState ({ planC2 with items := [⟨"A", "1秋", none⟩] } :
          EnrollmentPlan) "A") :=
  ⟨by decide,
   course_state_transitions planC2 (.setG "A" none)
     ({ planC2 with items := [⟨"A", "1秋", none⟩] }) (by decide) "A"⟩

end CourseGpa

/-! ## Claim C9 — `setGpa` validation -/

namespace CourseGpa

/-- C9: `setGpa(courseId, value-or-absent)` fails with the invalid-GPA
error when a present value lies outside the closed interval `[0, 4]`;
with an in-range (or absent) value it fails with the not-found error
when the course id is not enrolled; and on success with a present value
it stores that value rounded to 2 decimals.  (The "not parseable as a
number" half of the invalid-GPA condition has no counterpart in this
typed embedding; the boundary values 0 and 4 are accepted — see the
witness, which grades with exactly 4.) -/
theorem set_gpa_spec (p : EnrollmentPlan) (cid : String) :
    (∀ x : ℚ, (x < 0 ∨ 4 < x) →
      p.setGpaM cid (some x) = (p, some .invalidGpa))
    ∧ (∀ g : Option ℚ, (∀ x, g = some x → 0 ≤ x ∧ x ≤ 4) →
        p.has_course cid = false →
        p.setGpaM cid g = (p, some .notFoundPlan))
    ∧ (∀ x : ℚ, 0 ≤ x → x ≤ 4 → p.has_course cid = true →
        (p.setGpaM cid (some x)).2 = none
        ∧ ((p.setGpaM cid (some x)).1).get_gpa cid
            = .ok (some (round2 x))) := by
  refine ⟨?_, ?_, ?_⟩
  · intro x hbad
    simp only [EnrollmentPlan.setGpaM, validate_gpa, if_pos hbad]
  · intro g hg hnc
    have hok : ∃ v, validate_gpa g = .ok v := by
      cases g with
      | none => exact ⟨none, rfl⟩
      | some x =>
        obtain ⟨h0, h4⟩ := hg x rfl
        have hcond : ¬(x < 0 ∨ 4 < x) := by push_neg; exact ⟨h0, h4⟩
        refine ⟨some (round2 x), ?_⟩
        simp only [validate_gpa, if_neg hcond]
    obtain ⟨v, hv⟩ := hok
    simp only [EnrollmentPlan.setGpaM, hv, hnc, Bool.false_eq_true, if_false]
  · intro x h0 h4 hhc
    have hv : validate_gpa (some x) = .ok (some (round2 x)) := by
      have hcond : ¬(x < 0 ∨ 4 < x) := by push_neg; exact ⟨h0, h4⟩
      simp only [validate_gpa, if_neg hcond]
    have hres : p.setGpaM cid (some x)
        = ({ p with items :=
            EnrollmentPlan.setFirstGpa p.items cid (some (round2 x)) }, none) := by
      simp only [EnrollmentPlan.setGpaM, hv, hhc, if_pos]
    rw [hres]
    refine ⟨rfl, ?_⟩
    have hsome := has_course_iff_find?_isSome p cid
    rw [hhc] at hsome
    cases hf : p.items.find? (fun i => i.course_id == cid) with
    | none => rw [hf] at hsome; simp at hsome
    | some i =>
      have hfind := find?_setFirstGpa_eq p.items cid (some (round2 x)) i hf
      simp only [EnrollmentPlan.get_gpa, hfind]

/-- C9 witness: grading an enrolled course with the boundary value 4
succeeds and stores `round2 4`; the hypotheses are discharged
concretely. -/
theorem set_gpa_spec_witness :
    (0:ℚ) ≤ 4 ∧ (4:ℚ) ≤ 4 ∧ planC2.has_course "A" = true
    ∧ ((planC2.setGpaM "A" (some 4)).2 = none
      ∧ ((planC2.setGpaM "A" (some 4)).1).get_gpa "A"
          = .ok (some (round2 4))) :=
  ⟨by decide, by decide, by decide,
   (set_gpa_spec planC2 "A").2.2 4 (by decide) (by decide) (by decide)⟩

end CourseGpa

/-! ## Claim C5 — the credit-cap rule -/

namespace CourseGpa

/-- C5: once the earlier `add_course` checks pass (validated actual
semester, course resolved, not already enrolled, matching season), the
call fails with `CreditCapExceeded` — whose payload carries the current
term total, the incoming course's credits and the configured limit —
exactly when the term's scheduled credits plus the course's credits
strictly exceed the per-term ceiling; reaching the ceiling exactly
succeeds and appends the item. -/
theorem add_course_credit_cap (p : EnrollmentPlan) (cid sem : String)
    (c : Course)
    (hsem : ensure_actual_semester sem = some sem)
    (hc : catGet? p.catalog cid = some c)
    (hdup : p.has_course cid = false)
    (hseason : extract_season c.semester = some (seasonOfActual sem)) :
    (p.term_credit_limit < p.semester_credits_raw sem + c.credits →
      p.addCourseM cid sem
        = (p, some (.creditCapExceeded sem (p.semester_credits_raw sem)
            c.credits p.term_credit_limit)))
    ∧ (p.semester_credits_raw sem + c.credits ≤ p.term_credit_limit →
      p.addCourseM cid sem
        = ({ p with items := p.items ++ [⟨cid, sem, none⟩] }, none)) := by
  have hbase : p.addCourseM cid sem
      = if p.term_credit_limit < p.semester_credits_raw sem + c.credits then
          (p, some (.creditCapExceeded sem (p.semester_credits_raw sem)
            c.credits p.term_credit_limit))
        else ({ p with items := p.items ++ [⟨cid, sem, none⟩] }, none) := by
    simp only [EnrollmentPlan.addCourseM, hsem, hc, hdup, hseason,
      Bool.false_eq_true, if_false, ne_eq, not_true_eq_false, if_neg,
      not_false_eq_true]
  constructor
  · intro hcap
    rw [hbase, if_pos hcap]
  · intro hcap
    rw [hbase, if_neg (not_lt.mpr hcap)]

/-- C5 witness: the specification's scenario — term limit 3, adding the
3-credit autumn course `A1` to the empty term `1秋` succeeds (the
ceiling is reached exactly), and then adding the 2-credit course `B1`
to the same term fails with `CreditCapExceeded` carrying total 3,
incoming 2 and limit 3. -/
theorem add_course_credit_cap_witness :
    (planC5.semester_credits_raw "1秋" + (3:ℚ) ≤ planC5.term_credit_limit
      ∧ planC5.addCourseM "A1" "1秋" = (planC5B, none))
    ∧ (planC5B.term_credit_limit
        < planC5B.semester_credits_raw "1秋" + (2:ℚ)
      ∧ planC5B.addCourseM "B1" "1秋"
          = (planC5B, some (.creditCapExceeded "1秋"
              (planC5B.semester_credits_raw "1秋") 2
              planC5B.term_credit_limit))) :=
  ⟨⟨by decide,
    (add_course_credit_cap planC5 "A1" "1秋"
      ⟨"A1", "甲", "必修", 3, "秋", none, "未分类"⟩
      (by decide) (by decide) (by decide) (by decide)).2 (by decide)⟩,
   ⟨by decide,
    (add_course_credit_cap planC5B "B1" "1秋"
      ⟨"B1", "乙", "必修", 2, "秋", none, "未分类"⟩
      (by decide) (by decide) (by decide) (by decide)).1 (by decide)⟩⟩

end CourseGpa

/-! ## Claim C4 — one weighted-GPA algorithm for all four aggregates -/

namespace CourseGpa

/-- Credits resolved through the catalog are nonnegative when every
catalog entry's credits are (the specification's data-model invariant:
"credit value (non-negative decimal)"). -/
theorem creditsOf_nonneg (cat : Catalog) (id : String)
    (hnn : ∀ c ∈ cat, 0 ≤ c.credits) : 0 ≤ creditsOf cat id := by
  unfold creditsOf catGet?
  cases hf : cat.find? (fun c => c.course_id == id) with
  | none => simp
  | some c =>
    simp only [Option.map_some', Option.getD_some]
    exact hnn c (List.mem_of_find?_eq_some hf)

/-- The loop every aggregate of `core.py` runs — empty check, count of
missing GPAs, weighted sums, `total_c <= 0` guard — agrees with the
specification's algorithm (`gpaAggregate`, whose zero-credit guard is
an equality test) whenever catalog credits are nonnegative. -/
theorem aggregate_code_eq (cat : Catalog) (items : List PlanItem)
    (hnn : ∀ c ∈ cat, 0 ≤ c.credits) :
    (if items.isEmpty then ((none : Option ℚ), (0 : Nat))
     else
       let missing := (items.filter (fun i => i.gpa.isNone)).length
       if 0 < missing then (none, missing)
       else
         let total_w := (items.map
           (fun i => i.gpa.getD 0 * creditsOf cat i.course_id)).sum
         let total_c := (items.map (fun i => creditsOf cat i.course_id)).sum
         if total_c ≤ 0 then (none, 0)
         else (some (round3 (total_w / total_c)), 0))
    = gpaAggregate cat items := by
  unfold gpaAggregate
  by_cases hemp : items = []
  · subst hemp; rfl
  · rw [if_neg (by simpa using hemp), if_neg hemp]
    by_cases hmiss : 0 < (items.filter (fun i => i.gpa.isNone)).length
    · rw [if_pos hmiss, if_pos hmiss]
    · rw [if_neg hmiss, if_neg hmiss]
      have hc0 : 0 ≤ (items.map (fun i => creditsOf cat i.course_id)).sum :=
        List.sum_nonneg (by
          intro x hx
          obtain ⟨i, hi, hxeq⟩ := List.mem_map.mp hx
          rw [← hxeq]
          exact creditsOf_nonneg cat i.course_id hnn)
      by_cases hz : (items.map (fun i => creditsOf cat i.course_id)).sum = 0
      · rw [if_pos hz.le, if_pos hz]
      · rw [if_neg (not_le.mpr (lt_of_le_of_ne hc0 (Ne.symm hz))), if_neg hz]

/-- C4: every weighted-GPA aggregate — per-semester, per-year, major
subset and overall — computes the single specification algorithm on its
item subset: an empty subset gives `(absent, 0)`; any ungraded item
blanks the aggregate to `(absent, #ungraded)`; a fully graded subset
with zero total credits gives `(absent, 0)`; otherwise
`Σ(gpa·credits)/Σ(credits)` rounded to 3 decimals.  In particular,
`overallGpa` on an empty plan returns `(absent, 0)`, not an error.  The
hypothesis is the data model's nonnegative-credit invariant, which
makes the code's `total_c ≤ 0` guard coincide with the algorithm's
`total credits = 0` case. -/
theorem gpa_aggregates_uniform (p : EnrollmentPlan)
    (hnn : ∀ c ∈ p.catalog, 0 ≤ c.credits) :
    (∀ s sem', ensure_actual_semester s = some sem' →
      p.semester_gpa s
        = .ok (gpaAggregate p.catalog
            (p.items.filter (fun i => i.actual_semester == sem'))))
    ∧ p.overall_gpa = gpaAggregate p.catalog p.items
    ∧ p.major_gpa
        = gpaAggregate p.catalog (p.items.filter
            (fun i => MAJOR_CATS.contains
              (normCat (categoryOf p.catalog i.course_id))))
    ∧ p.yearly_gpa
        = p.planYears.map (fun y =>
            (y, gpaAggregate p.catalog
              (p.items.filter (fun i => yearOf i.actual_semester == y))))
    ∧ (p.items = [] → p.overall_gpa = (none, 0)) := by
  have hov : p.overall_gpa = gpaAggregate p.catalog p.items := by
    unfold EnrollmentPlan.overall_gpa
    exact aggregate_code_eq p.catalog p.items hnn
  refine ⟨?_, hov, ?_, ?_, ?_⟩
  · intro s sem' hsem
    unfold EnrollmentPlan.semester_gpa
    simp only [hsem]
    exact congrArg Except.ok (aggregate_code_eq p.catalog _ hnn)
  · unfold EnrollmentPlan.major_gpa
    exact aggregate_code_eq p.catalog _ hnn
  · unfold EnrollmentPlan.yearly_gpa
    refine List.map_congr_left ?_
    intro y hy
    exact congrArg (fun z => (y, z)) (aggregate_code_eq p.catalog _ hnn)
  · intro h
    rw [hov, h]
    rfl

/-- C4 witness: the aggregates of a concrete plan (which holds a graded
and an ungraded item) and the empty-plan case, with the nonnegativity
hypothesis discharged by evaluation. -/
theorem gpa_aggregates_uniform_witness :
    (∀ c ∈ planC10.catalog, 0 ≤ c.credits)
    ∧ ensure_actual_semester "1秋" = some "1秋"
    ∧ planC10.semester_gpa "1秋"
        = .ok (gpaAggregate planC10.catalog
            (planC10.items.filter (fun i => i.actual_semester == "1秋")))
    ∧ planC10.overall_gpa = gpaAggregate planC10.catalog planC10.items
    ∧ (planC6.items = [] → planC6.overall_gpa = (none, 0)) :=
  ⟨by decide, by decide,
   (gpa_aggregates_uniform planC10 (by decide)).1 "1秋" "1秋" (by decide),
   (gpa_aggregates_uniform planC10 (by decide)).2.1,
   (gpa_aggregates_uniform planC6 (by decide)).2.2.2.2⟩

end CourseGpa

/-! ## Claim C8 — credit-progress rows -/

namespace CourseGpa

/-- `Rat.floor` is `Int.floor`. -/
theorem ratFloor_eq_intFloor (q : ℚ) : Rat.floor q = ⌊q⌋ := by
  rw [Rat.floor_def', Rat.floor_def]

/-- Rounding an integer changes nothing. -/
theorem roundQ_intCast (k : ℤ) : roundQ (k : ℚ) = k := by
  unfold roundQ
  rw [ratFloor_eq_intFloor]
  have hhalf : ⌊(1 / 2 : ℚ)⌋ = 0 := by
    rw [Int.floor_eq_iff] <;> norm_num
  rw [add_comm, Int.floor_add_int]
  rw [hhalf]
  norm_num

theorem round3_multiple3 (q : ℚ) : multiple3 (round3 q) := by
  refine ⟨roundQ (q * 10 ^ 3), ?_⟩
  unfold round3 roundTo
  norm_num

theorem multiple3_round3_eq (q : ℚ) (h : multiple3 q) : round3 q = q := by
  obtain ⟨k, rfl⟩ := h
  unfold round3 roundTo
  have h1 : (k : ℚ) / 1000 * 10 ^ 3 = (k : ℚ) := by
    rw [show ((10 : ℚ) ^ 3) = 1000 by norm_num]
    exact div_mul_cancel₀ _ (by norm_num)
  rw [h1, roundQ_intCast]
  norm_num

theorem multiple3_zero : multiple3 0 := ⟨0, by norm_num⟩

theorem multiple3_sub (a b : ℚ) (ha : multiple3 a) (hb : multiple3 b) :
    multiple3 (a - b) := by
  obtain ⟨ka, rfl⟩ := ha
  obtain ⟨kb, rfl⟩ := hb
  exact ⟨ka - kb, by push_cast; ring⟩

theorem multiple3_max_zero (a : ℚ) (ha : multiple3 a) :
    multiple3 (max a 0) := by
  rcases le_total a 0 with h | h
  · rw [max_eq_right h]; exact multiple3_zero
  · rw [max_eq_left h]; exact ha

/-- Python's strict string comparison is asymmetric. -/
theorem charListLt_asymm : ∀ as bs : List Char,
    charListLt as bs = true → charListLt bs as = false := by
  intro as
  induction as with
  | nil =>
    intro bs h
    cases bs with
    | nil => simpa [charListLt] using h
    | cons b bs => rfl
  | cons a as ih =>
    intro bs h
    cases bs with
    | nil => simp [charListLt] at h
    | cons b bs =>
      unfold charListLt at h ⊢
      by_cases hab : a < b
      · rw [if_neg (lt_asymm hab), if_pos hab]
      · rw [if_neg hab] at h
        by_cases hba : b < a
        · rw [if_pos hba] at h
          exact absurd h (by simp)
        · rw [if_neg hba] at h
          rw [if_neg hba, if_neg hab]
          exact ih bs h

/-- The "not less than" relation on character lists is transitive. -/
theorem charListLt_false_trans : ∀ as bs cs : List Char,
    charListLt as bs = false → charListLt bs cs = false →
    charListLt as cs = false := by
  intro as
  induction as with
  | nil =>
    intro bs cs h1 h2
    cases bs with
    | nil =>
      cases cs with
      | nil => rfl
      | cons c cs => simpa [charListLt] using h2
    | cons b bs => simpa [charListLt] using h1
  | cons a as ih =>
    intro bs cs h1 h2
    cases bs with
    | nil =>
      cases cs with
      | nil => rfl
      | cons c cs => simpa [charListLt] using h2
    | cons b bs =>
      cases cs with
      | nil => rfl
      | cons c cs =>
        unfold charListLt at h1 h2 ⊢
        by_cases hab : a < b
        · rw [if_pos hab] at h1
          exact absurd h1 (by simp)
        · rw [if_neg hab] at h1
          by_cases hbc : b < c
          · rw [if_pos hbc] at h2
            exact absurd h2 (by simp)
          · rw [if_neg hbc] at h2
            by_cases hba : b < a
            · have hca : c < a := lt_of_le_of_lt (le_of_not_lt hbc) hba
              rw [if_neg (lt_asymm hca), if_pos hca]
            · have hb_eq : a = b :=
                le_antisymm (le_of_not_lt hba) (le_of_not_lt hab)
              by_cases hcb : c < b
              · have hca : c < a := hb_eq ▸ hcb
                rw [if_neg (lt_asymm hca), if_pos hca]
              · have hc_eq : b = c :=
                  le_antisymm (le_of_not_lt hcb) (le_of_not_lt hbc)
                rw [if_neg hba] at h1
                rw [if_neg hcb] at h2
                have hac : ¬ a < c := by
                  rw [hb_eq, hc_eq]; exact lt_irrefl c
                have hca : ¬ c < a := by
                  rw [hb_eq, hc_eq]; exact lt_irrefl c
                rw [if_neg hac, if_neg hca]
                exact ih bs cs h1 h2

/-- Python's string order is total. -/
theorem pyStrLE_total (a b : String) : pyStrLE a b ∨ pyStrLE b a := by
  unfold pyStrLE
  cases h : charListLt b.data a.data with
  | false => exact Or.inl rfl
  | true => exact Or.inr (charListLt_asymm _ _ h)

/-- Python's string order is transitive. -/
theorem pyStrLE_trans (a b c : String) (h1 : pyStrLE a b)
    (h2 : pyStrLE b c) : pyStrLE a c :=
  charListLt_false_trans c.data b.data a.data h2 h1

/-- Every slot of the progress dictionary is rounded to 3 decimals, so
its three fields are multiples of `1/1000`. -/
theorem credit_progress_fields_multiple3 (p : EnrollmentPlan)
    (reqs : List (String × ℚ)) (kv : String × CatProgress)
    (h : kv ∈ p.credit_progress_by_category reqs) :
    multiple3 kv.2.required ∧ multiple3 kv.2.selected
      ∧ multiple3 kv.2.completed := by
  simp only [EnrollmentPlan.credit_progress_by_category] at h
  obtain ⟨kv₀, -, rfl⟩ := List.mem_map.mp h
  exact ⟨round3_multiple3 _, round3_multiple3 _, round3_multiple3 _⟩

/-- C8: `creditProgressRows` lists the requirement-declared categories
first, in declared order, followed by the extra categories discovered
in enrollment, sorted in Python's string order and disjoint from the
declared ones; every row satisfies
`remaining = max(required − completed, 0)` (hence `remaining` is never
negative), and all numeric row values are rounded to 3 decimals (they
are fixed points of `round3`). -/
theorem credit_progress_rows_spec (p : EnrollmentPlan)
    (reqs : List (String × ℚ)) :
    ((p.credit_progress_rows reqs).map ProgressRow.category
        = reqs.map Prod.fst ++ p.extraCats reqs)
    ∧ List.Sorted pyStrLE (p.extraCats reqs)
    ∧ (∀ c ∈ p.extraCats reqs, c ∉ reqs.map Prod.fst)
    ∧ (∀ row ∈ p.credit_progress_rows reqs,
        row.remaining = max (row.required - row.completed) 0
        ∧ 0 ≤ row.remaining
        ∧ round3 row.required = row.required
        ∧ round3 row.selected = row.selected
        ∧ round3 row.completed = row.completed
        ∧ round3 row.remaining = row.remaining) := by
  refine ⟨?_, ?_, ?_, ?_⟩
  · unfold EnrollmentPlan.credit_progress_rows
    rw [List.map_map]
    have hco : ∀ cat ∈ reqs.map Prod.fst ++ p.extraCats reqs,
        (ProgressRow.category ∘ fun cat =>
          ({ category := cat
             required := round3 ((((p.credit_progress_by_category reqs).find?
               (fun kv => kv.1 == cat)).map Prod.snd).getD ⟨0, 0, 0⟩).required
             selected := round3 ((((p.credit_progress_by_category reqs).find?
               (fun kv => kv.1 == cat)).map Prod.snd).getD ⟨0, 0, 0⟩).selected
             completed := round3 ((((p.credit_progress_by_category reqs).find?
               (fun kv => kv.1 == cat)).map Prod.snd).getD ⟨0, 0, 0⟩).completed
             remaining := round3 (max (((((p.credit_progress_by_category
               reqs).find? (fun kv => kv.1 == cat)).map Prod.snd).getD
               ⟨0, 0, 0⟩).required - ((((p.credit_progress_by_category
               reqs).find? (fun kv => kv.1 == cat)).map Prod.snd).getD
               ⟨0, 0, 0⟩).completed) 0) } : ProgressRow)) cat = id cat :=
      fun cat _ => rfl
    rw [List.map_congr_left hco, List.map_id]
  · exact @List.sorted_insertionSort String pyStrLE _
      ⟨pyStrLE_total⟩ ⟨pyStrLE_trans⟩ _
  · intro c hc
    unfold EnrollmentPlan.extraCats at hc
    have hmem := (List.perm_insertionSort pyStrLE _).mem_iff.mp hc
    have := (List.mem_filter.mp hmem).2
    intro hcon
    simp only [decide_eq_true_eq] at this
    exact this (by
      rw [List.contains_iff_exists_mem_beq]
      exact ⟨c, hcon, by simp⟩)
  · intro row hrow
    unfold EnrollmentPlan.credit_progress_rows at hrow
    obtain ⟨cat, -, hroweq⟩ := List.mem_map.mp hrow
    set pr := (((p.credit_progress_by_category reqs).find?
        (fun kv => kv.1 == cat)).map Prod.snd).getD ⟨0, 0, 0⟩ with hpr
    have hm3 : multiple3 pr.required ∧ multiple3 pr.selected
        ∧ multiple3 pr.completed := by
      rw [hpr]
      cases hf : (p.credit_progress_by_category reqs).find?
          (fun kv => kv.1 == cat) with
      | none =>
        exact ⟨multiple3_zero, multiple3_zero, multiple3_zero⟩
      | some kv =>
        simp only [Option.map_some', Option.getD_some]
        exact credit_progress_fields_multiple3 p reqs kv
          (List.mem_of_find?_eq_some hf)
    obtain ⟨hm3r, hm3s, hm3c⟩ := hm3
    have hrem3 : multiple3 (max (pr.required - pr.completed) 0) :=
      multiple3_max_zero _ (multiple3_sub _ _ hm3r hm3c)
    rw [← hroweq]
    refine ⟨?_, ?_, ?_, ?_, ?_, ?_⟩
    · show round3 (max (pr.required - pr.completed) 0)
        = max (round3 pr.required - round3 pr.completed) 0
      rw [multiple3_round3_eq _ hrem3, multiple3_round3_eq _ hm3r,
        multiple3_round3_eq _ hm3c]
    · show (0:ℚ) ≤ round3 (max (pr.required - pr.completed) 0)
      rw [multiple3_round3_eq _ hrem3]
      exact le_max_right _ _
    · show round3 (round3 pr.required) = round3 pr.required
      exact multiple3_round3_eq _ (round3_multiple3 _)
    · show round3 (round3 pr.selected) = round3 pr.selected
      exact multiple3_round3_eq _ (round3_multiple3 _)
    · show round3 (round3 pr.completed) = round3 pr.completed
      exact multiple3_round3_eq _ (round3_multiple3 _)
    · show round3 (round3 (max (pr.required - pr.completed) 0))
        = round3 (max (pr.required - pr.completed) 0)
      exact multiple3_round3_eq _ (round3_multiple3 _)

/-- C8 witness: the progress rows of a concrete plan with one declared
requirement category and one extra category discovered in enrollment,
with the row properties instantiated on the declared category's row. -/
theorem credit_progress_rows_spec_witness :
    (planC10.credit_progress_rows [("体育", 4)]).map ProgressRow.category
        = ["体育", "未分类"]
    ∧ (⟨"体育", 4, 0, 0, 4⟩ : ProgressRow)
        ∈ planC10.credit_progress_rows [("体育", 4)]
    ∧ ((⟨"体育", 4, 0, 0, 4⟩ : ProgressRow).remaining
        = max ((4:ℚ) - 0) 0
      ∧ (0:ℚ) ≤ (⟨"体育", 4, 0, 0, 4⟩ : ProgressRow).remaining) :=
  ⟨by decide, by decide,
   ⟨((credit_progress_rows_spec planC10 [("体育", 4)]).2.2.2
       ⟨"体育", 4, 0, 0, 4⟩ (by decide)).1,
    ((credit_progress_rows_spec planC10 [("体育", 4)]).2.2.2
       ⟨"体育", 4, 0, 0, 4⟩ (by decide)).2.1⟩⟩

end CourseGpa

/-! ## Claim C1 — what loading re-validates -/

namespace CourseGpa

/-- The semester string a successful `ensure_actual_semester` returns
matches the strict actual-semester grammar. -/
theorem ensure_actual_semester_valid (r s : String)
    (h : ensure_actual_semester r = some s) :
    matchesActualSem s.data = true := by
  simp only [ensure_actual_semester] at h
  split at h
  next hm =>
    injection h with h1
    rw [← h1]
    exact hm
  · simp at h

/-- `round2` keeps values inside `[0, 4]`. -/
theorem round2_bounds (y : ℚ) (h0 : 0 ≤ y) (h4 : y ≤ 4) :
    0 ≤ round2 y ∧ round2 y ≤ 4 := by
  unfold round2 roundTo roundQ
  rw [ratFloor_eq_intFloor]
  have hlow : (0 : ℤ) ≤ ⌊y * 10 ^ 2 + 1 / 2⌋ := by
    rw [Int.le_floor]
    push_cast
    nlinarith
  have hhigh : ⌊y * 10 ^ 2 + 1 / 2⌋ ≤ 400 := by
    have hle : y * 10 ^ 2 + 1 / 2 ≤ (400 : ℚ) + 1 / 2 := by nlinarith
    have h400 : ⌊(400 : ℚ) + 1 / 2⌋ = 400 := by
      rw [Int.floor_eq_iff] <;> norm_num
    calc ⌊y * 10 ^ 2 + 1 / 2⌋ ≤ ⌊(400 : ℚ) + 1 / 2⌋ := Int.floor_le_floor hle
    _ = 400 := h400
  constructor
  · exact div_nonneg (by exact_mod_cast hlow) (by norm_num)
  · rw [div_le_iff₀ (by norm_num : (0:ℚ) < 10 ^ 2)]
    calc ((⌊y * 10 ^ 2 + 1 / 2⌋ : ℤ) : ℚ) ≤ ((400 : ℤ) : ℚ) := by
          exact_mod_cast hhigh
    _ ≤ 4 * 10 ^ 2 := by norm_num

end CourseGpa

namespace CourseGpa

/-- A GPA accepted by `validate_gpa` is stored inside `[0, 4]`. -/
theorem validate_gpa_ok_range (g v : Option ℚ)
    (h : validate_gpa g = .ok v) :
    ∀ x, v = some x → 0 ≤ x ∧ x ≤ 4 := by
  cases g with
  | none =>
    simp only [validate_gpa] at h
    injection h with h1
    intro x hx
    rw [← h1] at hx
    simp at hx
  | some y =>
    simp only [validate_gpa] at h
    split at h
    · simp at h
    next hcond =>
      push_neg at hcond
      injection h with h1
      intro x hx
      rw [← h1] at hx
      injection hx with hx
      rw [← hx]
      exact round2_bounds y hcond.1 hcond.2

/-- What a successful `Catalog.__init__` checked: the course ids seen
so far (and within the list) are distinct and every semester tag
parses. -/
theorem catalogInitGo_ok : ∀ (seen : List String) (courses : List Course),
    catalogInitGo seen courses = .ok () →
    (courses.map Course.course_id).Nodup
    ∧ ∀ c ∈ courses, (extract_season c.semester).isSome
        ∧ c.course_id ∉ seen := by
  intro seen courses
  induction courses generalizing seen with
  | nil => intro h; simp
  | cons c rest ih =>
    intro h
    unfold catalogInitGo at h
    split at h
    · simp at h
    next hseen =>
      cases hx : extract_season c.semester with
      | none => rw [hx] at h; simp at h
      | some season =>
        rw [hx] at h
        obtain ⟨hnodup, hall⟩ := ih (seen ++ [c.course_id]) h
        refine ⟨?_, ?_⟩
        · rw [List.map_cons, List.nodup_cons]
          refine ⟨?_, hnodup⟩
          intro hcon
          obtain ⟨d, hd, hdeq⟩ := List.mem_map.mp hcon
          have := (hall d hd).2
          rw [hdeq] at this
          exact this (by simp)
        · intro d hd
          rcases List.mem_cons.mp hd with hdc | hdr
          · subst hdc
            exact ⟨by rw [hx]; rfl, hseen⟩
          · obtain ⟨hs, hn⟩ := hall d hdr
            exact ⟨hs, fun hcon => hn (by simp [hcon])⟩

/-- What a successful plan-item load checked, and what it did not: the
course ids come over verbatim (duplicates included), each item's
actual semester matches the strict grammar, each GPA is in range, and
each course id resolves in the catalog. -/
theorem loadItems_spec : ∀ (cat : Catalog) (raw : List RawItem)
    (items : List PlanItem), loadItems cat raw = .ok items →
    items.map PlanItem.course_id = raw.map RawItem.course_id
    ∧ ∀ i ∈ items, (catGet? cat i.course_id).isSome
        ∧ matchesActualSem i.actual_semester.data = true
        ∧ (∀ x, i.gpa = some x → 0 ≤ x ∧ x ≤ 4) := by
  intro cat raw
  induction raw with
  | nil =>
    intro items h
    unfold loadItems at h
    injection h with h1
    rw [← h1]
    simp
  | cons r rest ih =>
    intro items h
    unfold loadItems at h
    split at h
    · simp at h
    next sem hsem =>
      split at h
      · simp at h
      next g hg =>
        split at h
        · simp at h
        next c hc =>
          split at h
          · simp at h
          next tail htail =>
            injection h with h1
            obtain ⟨hmap, hall⟩ := ih tail htail
            rw [← h1]
            refine ⟨by simp [hmap], ?_⟩
            intro i hi
            rcases List.mem_cons.mp hi with hihd | hitl
            · subst hihd
              refine ⟨?_, ensure_actual_semester_valid _ _ hsem,
                validate_gpa_ok_range _ _ hg⟩
              unfold catalogGet at hc
              split at hc
              · simp at hc
              next c' hc' => rw [hc']; rfl
            · exact hall i hitl

/-- C1 (amended): loading re-validates every course through the
catalog constructor (identifier uniqueness and semester grammar) and
every plan item through the runtime validators (strict actual-semester
grammar, GPA range via `validate_gpa`, course id resolvable in the
catalog), but it does **not** re-check plan-item uniqueness: the loaded
plan's course ids are exactly the document's, so a document enrolling
the same id twice loads into a plan with two `PlanItem`s sharing that
id instead of failing like a runtime duplicate `addCourse`. -/
theorem load_from_config_core_spec (courses : List Course)
    (limit ereq : ℚ) (raw : List RawItem) (p : EnrollmentPlan)
    (h : load_from_config_core courses limit ereq raw = .ok p) :
    p.catalog = courses
    ∧ p.term_credit_limit = limit
    ∧ p.elective_credit_requirement = ereq
    ∧ (courses.map Course.course_id).Nodup
    ∧ (∀ c ∈ courses, (extract_season c.semester).isSome)
    ∧ p.items.map PlanItem.course_id = raw.map RawItem.course_id
    ∧ ∀ i ∈ p.items, (catGet? courses i.course_id).isSome
        ∧ matchesActualSem i.actual_semester.data = true
        ∧ (∀ x, i.gpa = some x → 0 ≤ x ∧ x ≤ 4) := by
  unfold load_from_config_core at h
  split at h
  · simp at h
  next cat hcat =>
    split at h
    · simp at h
    next items hitems =>
      injection h with h1
      unfold catalogInit at hcat
      split at hcat
      · simp at hcat
      next u hu =>
        injection hcat with h2
        cases u
        subst h2
        obtain ⟨hnodup, hcourses⟩ := catalogInitGo_ok [] courses hu
        obtain ⟨hmap, hitemsall⟩ := loadItems_spec courses raw items hitems
        rw [← h1]
        exact ⟨rfl, rfl, rfl, hnodup,
          fun c hc => (hcourses c hc).1, hmap, hitemsall⟩

/-- C1 counterexample: the persisted document `rawC1` enrolls course
`"A"` twice; loading succeeds and yields a plan whose item list holds
two `PlanItem`s with the same course identifier, while the
corresponding runtime duplicate `addCourse` fails. -/
theorem load_duplicate_items_accepted :
    load_from_config_core catC1 30 15 rawC1
      = .ok { catalog := catC1, term_credit_limit := 30,
              elective_credit_requirement := 15,
              items := [⟨"A", "1秋", none⟩, ⟨"A", "1秋", none⟩] }
    ∧ (({ catalog := catC1, term_credit_limit := 30,
          elective_credit_requirement := 15,
          items := [⟨"A", "1秋", none⟩] } : EnrollmentPlan).addCourseM
            "A" "1秋").2 = some (.duplicateEnrollment "A") :=
  ⟨by decide, by decide⟩

/-- C1 witness: the amended load characterisation instantiated on the
duplicate-enrollment document. -/
theorem load_from_config_core_spec_witness :
    load_from_config_core catC1 30 15 rawC1
      = .ok { catalog := catC1, term_credit_limit := 30,
              elective_credit_requirement := 15,
              items := [⟨"A", "1秋", none⟩, ⟨"A", "1秋", none⟩] }
    ∧ ({ catalog := catC1, term_credit_limit := 30,
         elective_credit_requirement := 15,
         items := [⟨"A", "1秋", none⟩, ⟨"A", "1秋", none⟩] } :
        EnrollmentPlan).items.map PlanItem.course_id
        = rawC1.map RawItem.course_id :=
  ⟨by decide,
   (load_from_config_core_spec catC1 30 15 rawC1
     { catalog := catC1, term_credit_limit := 30,
       elective_credit_requirement := 15,
       items := [⟨"A", "1秋", none⟩, ⟨"A", "1秋", none⟩] }
     (by decide)).2.2.2.2.2.1⟩

end CourseGpa

/-! ## Claim C7 — `autoAddAllRequired` placement -/

namespace CourseGpa

/-- A digit character is not whitespace. -/
theorem digit_not_ws (c : Char) (h : c.isDigit = true) :
    c.isWhitespace = false := by
  simp only [Char.isDigit, Bool.and_eq_true, decide_eq_true_eq] at h
  obtain ⟨h1, -⟩ := h
  simp only [Char.isWhitespace, Bool.or_eq_false_iff]
  refine ⟨⟨⟨?_, ?_⟩, ?_⟩, ?_⟩ <;>
    · simp only [beq_eq_false_iff_ne, ne_eq, decide_eq_false_iff_not]
      intro hc
      rw [hc] at h1
      exact absurd h1 (by decide)

/-- A season character is not whitespace. -/
theorem season_not_ws (c : Char) (h : isSeasonChar c = true) :
    c.isWhitespace = false := by
  simp only [isSeasonChar, Bool.or_eq_true, beq_iff_eq] at h
  rcases h with (h | h) | h <;> subst h <;> decide

/-- `dropWhile` is the identity when the head fails the predicate. -/
theorem dropWhile_eq_self_of_head {α : Type} (p : α → Bool) (l : List α)
    (h : ∀ a, l.head? = some a → p a = false) : l.dropWhile p = l := by
  cases l with
  | nil => rfl
  | cons a l =>
    rw [List.dropWhile_cons, if_neg]
    rw [h a rfl]
    simp

/-- Stripping changes nothing when neither end is whitespace. -/
theorem stripChars_eq_self (cs : List Char)
    (hhead : ∀ a, cs.head? = some a → a.isWhitespace = false)
    (hlast : ∀ a, cs.getLast? = some a → a.isWhitespace = false) :
    stripChars cs = cs := by
  unfold stripChars
  rw [dropWhile_eq_self_of_head _ _ hhead]
  rw [dropWhile_eq_self_of_head _ _ (by
    intro a ha
    rw [List.head?_reverse] at ha
    exact hlast a ha)]
  exact List.reverse_reverse cs

/-- Decomposition of a string matched by `ACTUAL_SEM_RE`: a nonempty
digit block followed by one season character. -/
theorem matchesActualSem_parts (cs : List Char)
    (h : matchesActualSem cs = true) :
    ∃ ds s₀, cs = ds ++ [s₀] ∧ ds ≠ [] ∧ (∀ d ∈ ds, d.isDigit = true)
      ∧ isSeasonChar s₀ = true := by
  simp only [matchesActualSem, Bool.and_eq_true] at h
  obtain ⟨hrest, hds⟩ := h
  cases hdw : cs.dropWhile Char.isDigit with
  | nil => rw [hdw] at hrest; simp at hrest
  | cons s₀ rest =>
    cases rest with
    | cons x xs => rw [hdw] at hrest; simp at hrest
    | nil =>
      rw [hdw] at hrest
      refine ⟨cs.takeWhile Char.isDigit, s₀, ?_, ?_, ?_, hrest⟩
      · rw [← hdw, List.takeWhile_append_dropWhile]
      · cases ht : cs.takeWhile Char.isDigit with
        | nil => rw [ht] at hds; simp at hds
        | cons d ds' => simp
      · intro d hd
        exact List.mem_takeWhile_imp hd

/-- `ACTUAL_SEM_RE` matches only strings `COURSE_SEM_RE` also matches. -/
theorem matchesCourse_of_matchesActual (cs : List Char)
    (h : matchesActualSem cs = true) : matchesCourseSem cs = true := by
  simp only [matchesActualSem, Bool.and_eq_true] at h
  simp only [matchesCourseSem, Bool.and_eq_true]
  obtain ⟨h1, h2⟩ := h
  refine ⟨h1, ?_⟩
  cases ht : cs.takeWhile Char.isDigit with
  | nil => rfl
  | cons d ds' =>
    rw [ht] at h2
    exact h2

/-- On a string fully matched by the strict grammar, `extract_season`
returns the (season) last character. -/
theorem extract_season_of_matchesActual (s : String)
    (h : matchesActualSem s.data = true) :
    (∃ s₀, s.data.getLast? = some s₀ ∧ isSeasonChar s₀ = true
      ∧ extract_season s = some s₀) := by
  obtain ⟨ds, s₀, hshape, hne, hdig, hseason⟩ :=
    matchesActualSem_parts s.data h
  have hlast : s.data.getLast? = some s₀ := by
    rw [hshape]; exact List.getLast?_concat _
  have hstrip : stripChars s.data = s.data := by
    apply stripChars_eq_self
    · intro a ha
      rw [hshape] at ha
      cases ds with
      | nil => exact absurd rfl hne
      | cons d ds' =>
        simp only [List.cons_append, List.head?_cons] at ha
        injection ha with ha
        rw [← ha]
        exact digit_not_ws d (hdig d (by simp))
    · intro a ha
      rw [hlast] at ha
      injection ha with ha
      rw [← ha]
      exact season_not_ws s₀ hseason
  refine ⟨s₀, hlast, hseason, ?_⟩
  have hts : s.toList = s.data := rfl
  simp only [extract_season, hts, hstrip,
    matchesCourse_of_matchesActual s.data h, if_true, hlast]

/-- `extract_season` only ever returns season characters. -/
theorem extract_season_isSeason (s : String) (x : Char)
    (h : extract_season s = some x) : isSeasonChar x = true := by
  simp only [extract_season] at h
  split at h
  next hm =>
    simp only [matchesCourseSem, Bool.and_eq_true] at hm
    obtain ⟨hrest, -⟩ := hm
    cases hdw : (stripChars s.toList).dropWhile Char.isDigit with
    | nil => rw [hdw] at hrest; simp at hrest
    | cons s₀ rest =>
      cases rest with
      | cons y ys => rw [hdw] at hrest; simp at hrest
      | nil =>
        rw [hdw] at hrest
        have hshape : stripChars s.toList
            = (stripChars s.toList).takeWhile Char.isDigit ++ [s₀] := by
          rw [← hdw, List.takeWhile_append_dropWhile]
        rw [hshape, List.getLast?_concat] at h
        injection h with h
        rw [← h]
        exact hrest
  · simp at h

/-- Every canonical planning semester matches the strict grammar. -/
theorem plan_semesters_match (t : String) (h : t ∈ PLAN_SEMESTERS) :
    matchesActualSem t.data = true := by
  fin_cases h <;> decide

/-- The season cases. -/
theorem isSeasonChar_cases (c : Char) (h : isSeasonChar c = true) :
    c = '秋' ∨ c = '春' ∨ c = '夏' := by
  simp only [isSeasonChar, Bool.or_eq_true, beq_iff_eq] at h
  tauto

/-- The code's target placement agrees with the claim-side placement on
every course whose semester tag is valid (which `Catalog.__init__`
guarantees). -/
theorem autoTarget_eq_spec (c : Course)
    (hvalid : (extract_season c.semester).isSome = true) :
    EnrollmentPlan.autoTarget c = autoTargetSpec c := by
  simp only [EnrollmentPlan.autoTarget, autoTargetSpec]
  by_cases hm : matchesActualSem c.semester.toList = true
  · rw [if_pos hm]
    obtain ⟨s₀, hlast, hseason, hex⟩ :=
      extract_season_of_matchesActual c.semester hm
    by_cases hplan : c.semester ∈ PLAN_SEMESTERS
    · rw [if_neg (not_not_intro hplan), if_pos hplan]
    · rw [if_pos hplan, if_neg hplan, hex]
      have hEW : ∀ ch : Char, endsWithChar c.semester ch = (s₀ == ch) := by
        intro ch
        simp only [endsWithChar, hlast]
        rfl
      rcases isSeasonChar_cases s₀ hseason with h0 | h0 | h0 <;> subst h0
      · rw [hEW '秋']
        simp
      · rw [hEW '秋', hEW '春']
        simp
      · rw [hEW '秋', hEW '春']
        simp
  · rw [if_neg hm]
    have hplan : c.semester ∉ PLAN_SEMESTERS := fun hmem =>
      hm (plan_semesters_match c.semester hmem)
    rw [if_neg hplan]
    cases hex : extract_season c.semester with
    | none => rw [hex] at hvalid; simp at hvalid
    | some s₀ =>
      rcases isSeasonChar_cases s₀ (extract_season_isSeason _ _ hex)
        with h0 | h0 | h0 <;> subst h0 <;> decide
  -- close

/-- The two batch loops agree course by course once the targets do. -/
theorem autoAddGo_eq_spec : ∀ (l : List Course),
    (∀ c ∈ l, EnrollmentPlan.autoTarget c = autoTargetSpec c) →
    ∀ p : EnrollmentPlan, p.autoAddGo l = autoAddSpecGo p l := by
  intro l
  induction l with
  | nil => intro _ p; rfl
  | cons c rest ih =>
    intro hl p
    unfold EnrollmentPlan.autoAddGo autoAddSpecGo
    rw [hl c (by simp)]
    by_cases hhc : p.has_course c.course_id = true
    · rw [if_pos hhc, if_pos hhc]
      exact ih (fun d hd => hl d (by simp [hd])) p
    · rw [if_neg hhc, if_neg hhc]
      cases hres : p.addCourseM c.course_id (autoTargetSpec c) with
      | mk p' e =>
        cases e with
        | none => exact ih (fun d hd => hl d (by simp [hd])) p'
        | some err => rfl

/-- C7 (amended): on a catalog whose semester tags are all valid (as
`Catalog.__init__` guarantees), `autoAddAllRequired` behaves exactly as
the claim describes except for the target of an explicit year beyond
the fourth planning year: it iterates over the required courses not yet
enrolled, sorted by (season, identifier); a course whose tag names one
of the twelve planning semesters verbatim is enrolled in that exact
actual semester, and every other course — season-only tags, but also
tags with an explicit year outside the four planning years — is
enrolled in the fourth (final) planning year's matching season; each
enrollment goes through `addCourse`, and the batch aborts on the first
failure, keeping the courses added before it. -/
theorem auto_add_matches_spec (p : EnrollmentPlan)
    (hvalid : ∀ c ∈ p.catalog, (extract_season c.semester).isSome = true) :
    p.auto_add_all_required = autoAddSpec p := by
  unfold EnrollmentPlan.auto_add_all_required autoAddSpec
  apply autoAddGo_eq_spec
  intro c hc
  apply autoTarget_eq_spec
  apply hvalid
  have hmem := (List.perm_insertionSort EnrollmentPlan.autoSortLE
    (required_courses p.catalog)).mem_iff.mp hc
  exact List.mem_of_mem_filter hmem

/-- C7 counterexample: the required course `"X"` carries the explicit
year+season tag `"5秋"` (which the catalog accepts), yet
`autoAddAllRequired` enrolls it in `"4秋"`, not in the exact actual
semester `"5秋"` the claim prescribes. -/
theorem auto_add_year_beyond_four_remapped :
    matchesActualSem ("5秋" : String).data = true
    ∧ (planC7.auto_add_all_required).2 = none
    ∧ (planC7.auto_add_all_required).1.items = [⟨"X", "4秋", none⟩]
    ∧ ("5秋" : String) ≠ "4秋" :=
  ⟨by decide, by decide, by decide, by decide⟩

/-- C7 witness: the amended equivalence instantiated on the concrete
beyond-fourth-year catalog. -/
theorem auto_add_matches_spec_witness :
    (∀ c ∈ planC7.catalog, (extract_season c.semester).isSome = true)
    ∧ planC7.auto_add_all_required = autoAddSpec planC7 :=
  ⟨by decide, auto_add_matches_spec planC7 (by decide)⟩

end CourseGpa
